import Mathlib

/-
Verification of the bluetooth device module (src/bluetooth/mod.rs) of the
airpod_alfred_connector repository.

Strings are embedded as `List Char`.  Rust's `str::to_lowercase` is modelled
by mapping `Char.toLower` over the characters (faithful on the ASCII fragment,
which is all the device lines and addresses use).  Rust's stable `sort_by` /
`sort_by_key` are modelled by a stable insertion sort parameterised by the
comparator-induced boolean `le` relation.  The panic of `assert!` in
`DeviceInfo::from_raw_str` is modelled by returning `none`.
-/

/-- Lowercase a string character by character, modelling `str::to_lowercase`
on the ASCII fragment. -/
def lowerStr (s : List Char) : List Char := s.map Char.toLower

/-- Boolean test that `pat` occurs at the very front of `s`. -/
def hasPre : List Char → List Char → Bool
  | [], _ => true
  | _ :: _, [] => false
  | p :: ps, c :: cs => decide (p = c) && hasPre ps cs

/-- Boolean substring containment, modelling Rust `str::contains` with a
literal pattern. -/
def containsSub (pat : List Char) : List Char → Bool
  | [] => hasPre pat []
  | c :: t => hasPre pat (c :: t) || containsSub pat t

/-- Strip an expected literal from the front of a string, returning the
remainder on success. -/
def dropLit : List Char → List Char → Option (List Char)
  | [], s => some s
  | _ :: _, [] => none
  | p :: ps, c :: cs => if p = c then dropLit ps cs else none

/-- The double-quote character (written via its code point to keep literals
unambiguous). -/
def qc : Char := Char.ofNat 34

/-- The newline character; `.` in the Rust regex matches any character except
newline. -/
def nl : Char := Char.ofNat 10

/-- The literal `address: ` opening the Rust regex
`^address: ([a-zA-Z0-9_-]{17}),.*name: "([^"]*)"`. -/
def addrLit : List Char := "address: ".toList

/-- The literal `name: "` of the Rust regex (closing double quote of the
capture group not included). -/
def nameLit : List Char := "name: ".toList ++ [qc]

/-- The disconnection marker substring tested by `data.contains("not connected")`. -/
def notConnLit : List Char := "not connected".toList

/-- Membership in the regex character class `[a-zA-Z0-9_-]`. -/
def isAddrChar (c : Char) : Bool :=
  (decide ('a' ≤ c) && decide (c ≤ 'z')) ||
  (decide ('A' ≤ c) && decide (c ≤ 'Z')) ||
  (decide ('0' ≤ c) && decide (c ≤ '9')) ||
  decide (c = '_') || decide (c = '-')

/-- Attempt to match `name: "([^"]*)"` at the current position: the literal
`name: "`, then the capture runs to the next double quote, which must be
present. -/
def tryNameAt (s : List Char) : Option (List Char) :=
  match dropLit nameLit s with
  | none => none
  | some t =>
    if decide (qc ∈ t) then some (t.takeWhile (fun c => !(decide (c = qc)))) else none

/-- Match `.*name: "([^"]*)"` against `s`: the greedy `.*` selects the last
position (before any newline, which `.` cannot cross) at which
`name: "([^"]*)"` matches, and returns that capture. -/
def lastNameCap : List Char → Option (List Char)
  | [] => none
  | c :: t =>
    if decide (c = nl) then none
    else
      match lastNameCap t with
      | some r => some r
      | none => tryNameAt (c :: t)

/-- Capture groups of the leftmost match of the anchored Rust regex
`^address: ([a-zA-Z0-9_-]{17}),.*name: "([^"]*)"` : 17 class characters after
`address: `, a comma, then the greedy name capture.  `none` when the line does
not match. -/
def regexCaptures (s : List Char) : Option (List Char × List Char) :=
  match dropLit addrLit s with
  | none => none
  | some r1 =>
    if decide ((r1.take 17).length = 17) && (r1.take 17).all isAddrChar then
      match r1.drop 17 with
      | c :: rest =>
        if decide (c = ',') then
          match lastNameCap rest with
          | some nm => some (r1.take 17, nm)
          | none => none
        else none
      | [] => none
    else none

/-- Declarative reading of a line matching the parser's pattern: the literal
`address: `, a 17-character capture from the address class, a comma, then
(after a newline-free gap matched by `.*`) the literal `name: "`, a quote-free
name capture and its closing quote. -/
def MatchesPat (s : List Char) : Prop :=
  ∃ addr pre nm post,
    s = addrLit ++ addr ++ ',' :: (pre ++ nameLit ++ nm ++ qc :: post) ∧
    addr.length = 17 ∧ (∀ c ∈ addr, isAddrChar c = true) ∧
    (∀ c ∈ nm, c ≠ qc) ∧ (∀ c ∈ pre, c ≠ nl)

/-- The parsed representation of one paired device (struct `DeviceInfo`). -/
structure DeviceInfo where
  name : List Char
  address : List Char
  connected : Bool
deriving DecidableEq, Repr

/-- `DeviceInfo::from_raw_str`: the `assert!(RE.is_match(..))` panic on a
non-matching line is modelled by `none`; on a matching line the first capture
is the address, the second the name, and `connected` is the negation of
`data.contains("not connected")`. -/
def DeviceInfo.from_raw_str (data : List Char) : Option DeviceInfo :=
  match regexCaptures data with
  | none => none
  | some (addr, nm) => some ⟨nm, addr, !(containsSub notConnLit data)⟩

/-- The filter specification (enum `DeviceFilters`). -/
inductive DeviceFilters where
  | AllDevices : DeviceFilters
  | SpecificAddresses (addresses : List (List Char)) : DeviceFilters
  | Regex (value : List Char) : DeviceFilters
deriving DecidableEq

/-- List options (struct `DeviceListOptions`). -/
structure DeviceListOptions where
  filters : DeviceFilters
  previous_address : Option (List Char)

/-- `BluetoothClient::get_filtered_devices`.  `SpecificAddresses` keeps
records whose lowercased address is an element of the given vector
(`addresses.contains(&x.address.to_lowercase())`); `Regex` keeps records whose
lowercased name contains `value` as a substring
(`x.name.to_lowercase().contains(&value)`). -/
def get_filtered_devices (devices : List DeviceInfo) (filters : DeviceFilters) :
    List DeviceInfo :=
  match filters with
  | .AllDevices => devices
  | .SpecificAddresses addresses =>
      devices.filter (fun x => decide (lowerStr x.address ∈ addresses))
  | .Regex value =>
      devices.filter (fun x => containsSub value (lowerStr x.name))

/-- One insertion step of the stable insertion sort: `le x y = true` means the
comparator does not order `x` strictly after `y`, so `x` may be placed in
front of `y`. -/
def insertDev (le : DeviceInfo → DeviceInfo → Bool) (x : DeviceInfo) :
    List DeviceInfo → List DeviceInfo
  | [] => [x]
  | y :: ys => if le x y then x :: y :: ys else y :: insertDev le x ys

/-- Stable insertion sort modelling Rust's stable `Vec::sort_by`. -/
def sortDev (le : DeviceInfo → DeviceInfo → Bool) :
    List DeviceInfo → List DeviceInfo
  | [] => []
  | x :: xs => insertDev le x (sortDev le xs)

/-- The `le` relation induced by the comparator
`|a, b| b.connected.cmp(&a.connected)` (connected devices first): `a` is not
strictly after `b` unless `b` is connected and `a` is not. -/
def connLe (a b : DeviceInfo) : Bool := !(b.connected && !a.connected)

/-- The `le` relation induced by
`sort_by_key(|a| a.address.to_lowercase() != previous_address.to_lowercase())`
(records matching the previous address first, `false < true` on keys). -/
def prevKeyLe (prev : List Char) (a b : DeviceInfo) : Bool :=
  !(decide (lowerStr a.address ≠ lowerStr prev) &&
    !(decide (lowerStr b.address ≠ lowerStr prev)))

/-- `BluetoothClient::get_device_list`, as a function of the raw device list
returned by the gateway: filter, stable-sort connected first, then, when a
previous address is given, stable-sort its case-insensitive matches to the
front. -/
def get_device_list (devices : List DeviceInfo) (options : DeviceListOptions) :
    List DeviceInfo :=
  match options.previous_address with
  | none => sortDev connLe (get_filtered_devices devices options.filters)
  | some prev =>
      sortDev (prevKeyLe prev) (sortDev connLe (get_filtered_devices devices options.filters))

/-- The error type `BluetoothClientError` (a message string). -/
structure BluetoothClientError where
  details : List Char
deriving DecidableEq, Repr

/-- The apostrophe character of the not-found message, written via its code
point. -/
def apos : Char := Char.ofNat 39

/-- The message built by `format!("Could not find device id : '{}'", address)`. -/
def notFoundMsg (address : List Char) : List Char :=
  "Could not find device id : ".toList ++ apos :: (address ++ [apos])

/-- `BluetoothClient::get_device_info`: list with a singleton
`SpecificAddresses` filter and no previous address, keep the records whose
lowercased address equals the lowercased query, error when none remain, else
return the first. -/
def get_device_info (address : List Char) (devices : List DeviceInfo) :
    Except BluetoothClientError DeviceInfo :=
  match (get_device_list devices ⟨.SpecificAddresses [address], none⟩).filter
      (fun x => decide (lowerStr x.address = lowerStr address)) with
  | [] => .error ⟨notFoundMsg address⟩
  | d :: _ => .ok d

/-- An invocation of the device control gateway (trait `Client`). -/
inductive GatewayAction where
  | connect (address : List Char) : GatewayAction
  | disconnect (address : List Char) : GatewayAction
deriving DecidableEq, Repr

/-- `BluetoothClient::toggle_connected_status`, returning the Rust result
together with the trace of gateway invocations performed: look the device up,
then disconnect (reporting `false`) when it is connected, else connect
(reporting `true`).  On a failed lookup the `?` operator returns before any
gateway call. -/
def toggle_connected_status (address : List Char) (devices : List DeviceInfo) :
    Except BluetoothClientError Bool × List GatewayAction :=
  match get_device_info address devices with
  | .error e => (.error e, [])
  | .ok device =>
    if device.connected then (.ok false, [GatewayAction.disconnect address])
    else (.ok true, [GatewayAction.connect address])

/-- Spec-side address filter, following the spec's words: keep records whose
address case-insensitively matches some entry of the set (insensitive to the
case of the record's address and of the set's entries alike). -/
def filterByAddressesSpec (addresses : List (List Char)) (devices : List DeviceInfo) :
    List DeviceInfo :=
  devices.filter (fun d => decide (∃ a ∈ addresses, lowerStr a = lowerStr d.address))

/-- Spec-side name filter, following the spec's words: keep records whose name
case-insensitively contains the pattern (insensitive to the case of the name
and of the pattern alike). -/
def filterByNameSpec (value : List Char) (devices : List DeviceInfo) :
    List DeviceInfo :=
  devices.filter (fun d => decide (lowerStr value <:+: lowerStr d.name))

/-- A well-formed device line (address `00-11-22-33-44-55`, name `Pods`,
no disconnection marker). -/
def goodLine : List Char :=
  "address: 00-11-22-33-44-55, name: ".toList ++ qc :: ("Pods".toList ++ [qc])

/-- The malformed line of the repository's own panic test
(`device_info_panics_for_invalid_str`). -/
def badLine : List Char := "address: 5c-2e-fg-da-a3-43".toList

/-- `hasPre` decides list-prefix. -/
theorem hasPre_iff (pat s : List Char) : hasPre pat s = true ↔ pat <+: s := by
  induction pat generalizing s with
  | nil => simp [hasPre]
  | cons p ps ih =>
    cases s with
    | nil => simp [hasPre]
    | cons c cs =>
      simp only [hasPre, Bool.and_eq_true, decide_eq_true_eq, ih]
      constructor
      · rintro ⟨rfl, t, rfl⟩
        exact ⟨t, rfl⟩
      · rintro ⟨t, ht⟩
        injection ht with h1 h2
        exact ⟨h1, t, h2⟩

/-- `containsSub` decides list-infix, validating the substring model of Rust
`str::contains`. -/
theorem containsSub_iff (pat s : List Char) : containsSub pat s = true ↔ pat <:+: s := by
  induction s with
  | nil => simp [containsSub, hasPre_iff, List.prefix_nil, List.infix_nil]
  | cons c t ih =>
    simp only [containsSub, Bool.or_eq_true, hasPre_iff, ih, List.infix_cons_iff]

/-- A successful `dropLit` means the literal was a prefix. -/
theorem dropLit_sound (p : List Char) : ∀ s r, dropLit p s = some r → s = p ++ r := by
  induction p with
  | nil =>
    intro s r h
    simp only [dropLit, Option.some.injEq] at h
    simp [h]
  | cons x ps ih =>
    intro s r h
    cases s with
    | nil => simp [dropLit] at h
    | cons c cs =>
      simp only [dropLit] at h
      split at h
      · next heq => simpa [heq] using ih cs r h
      · exact absurd h (by simp)

/-- `dropLit` strips exactly its literal. -/
theorem dropLit_self (p : List Char) : ∀ s, dropLit p (p ++ s) = some s := by
  induction p with
  | nil => intro s; rfl
  | cons x ps ih => intro s; simp [dropLit, ih]

/-- A string containing a quote splits as its quote-free prefix, the first
quote, and the rest. -/
theorem quote_decomp (t : List Char) (h : qc ∈ t) :
    ∃ post, t = t.takeWhile (fun c => !(decide (c = qc))) ++ qc :: post := by
  induction t with
  | nil => cases h
  | cons c t' ih =>
    by_cases hc : c = qc
    · subst hc
      exact ⟨t', by simp [List.takeWhile_cons]⟩
    · have hmem : qc ∈ t' := by
        rcases List.mem_cons.mp h with h' | h'
        · exact absurd h'.symm hc
        · exact h'
      obtain ⟨post, hpost⟩ := ih hmem
      refine ⟨post, ?_⟩
      rw [List.takeWhile_cons]
      simp only [hc, decide_False, Bool.not_false, if_true]
      rw [List.cons_append, ← hpost]

/-- Soundness of `tryNameAt`: a successful match at the current position
decomposes the string as the `name: "` literal, the quote-free capture, the
closing quote and a remainder. -/
theorem tryNameAt_sound (s nm : List Char) (h : tryNameAt s = some nm) :
    (∃ post, s = nameLit ++ nm ++ qc :: post) ∧ (∀ c ∈ nm, c ≠ qc) := by
  unfold tryNameAt at h
  cases hd : dropLit nameLit s with
  | none => rw [hd] at h; cases h
  | some t =>
    rw [hd] at h
    by_cases hq : qc ∈ t
    · simp only [hq, decide_True, if_true, Option.some.injEq] at h
      subst h
      obtain ⟨post, hpost⟩ := quote_decomp t hq
      refine ⟨⟨post, ?_⟩, ?_⟩
      · rw [dropLit_sound nameLit s t hd, List.append_assoc, ← hpost]
      · intro c hc
        have := List.mem_takeWhile_imp hc
        simpa using this
    · simp [hq] at h

/-- Completeness of `tryNameAt`: at a position carrying the literal, a
quote-free capture and a closing quote, the match succeeds. -/
theorem tryNameAt_isSome (nm post : List Char) :
    (tryNameAt (nameLit ++ nm ++ qc :: post)).isSome = true := by
  unfold tryNameAt
  rw [show nameLit ++ nm ++ qc :: post = nameLit ++ (nm ++ qc :: post) by simp, dropLit_self]
  have hq : qc ∈ nm ++ qc :: post := List.mem_append_right _ (List.mem_cons_self _ _)
  simp [hq]

/-- Soundness of the greedy `.*name: "([^"]*)"` matcher: a capture decomposes
the string into a newline-free gap, the literal, the quote-free capture and
the closing quote. -/
theorem lastNameCap_sound : ∀ s nm, lastNameCap s = some nm →
    ∃ pre post, s = pre ++ nameLit ++ nm ++ qc :: post ∧
      (∀ c ∈ pre, c ≠ nl) ∧ (∀ c ∈ nm, c ≠ qc) := by
  intro s
  induction s with
  | nil => intro nm h; cases h
  | cons c t ih =>
    intro nm h
    unfold lastNameCap at h
    by_cases hc : c = nl
    · simp [hc] at h
    · simp only [hc, decide_False, if_false] at h
      cases hrec : lastNameCap t with
      | some r =>
        rw [hrec] at h
        injection h with h
        subst h
        obtain ⟨pre, post, hdec, hpre, hnm⟩ := ih _ hrec
        refine ⟨c :: pre, post, by simp [hdec], ?_, hnm⟩
        intro x hx
        rcases List.mem_cons.mp hx with rfl | hx'
        · exact hc
        · exact hpre x hx'
      | none =>
        rw [hrec] at h
        obtain ⟨⟨post, hdec⟩, hnm⟩ := tryNameAt_sound _ _ h
        exact ⟨[], post, by simpa using hdec, by simp, hnm⟩

/-- Completeness of the greedy matcher: on a string of the decomposed shape it
finds some capture. -/
theorem lastNameCap_isSome : ∀ pre nm post, (∀ c ∈ pre, c ≠ nl) →
    (lastNameCap (pre ++ nameLit ++ nm ++ qc :: post)).isSome = true := by
  intro pre
  induction pre with
  | nil =>
    intro nm post _
    simp only [List.nil_append]
    rw [show nameLit ++ nm ++ qc :: post = 'n' :: ("ame: ".toList ++ [qc] ++ nm ++ qc :: post) by
      simp [nameLit]]
    unfold lastNameCap
    have hn : ('n' = nl) = False := by simp [nl, Char.ofNat]
    simp only [hn, decide_False, if_false]
    cases hrec : lastNameCap ("ame: ".toList ++ [qc] ++ nm ++ qc :: post) with
    | some r => simp
    | none =>
      have := tryNameAt_isSome nm post
      rw [show nameLit ++ nm ++ qc :: post = 'n' :: ("ame: ".toList ++ [qc] ++ nm ++ qc :: post) by
        simp [nameLit]] at this
      simpa using this
  | cons c pre' ih =>
    intro nm post hpre
    have hc : c ≠ nl := hpre c (List.mem_cons_self _ _)
    rw [show (c :: pre') ++ nameLit ++ nm ++ qc :: post =
        c :: (pre' ++ nameLit ++ nm ++ qc :: post) by simp]
    unfold lastNameCap
    simp only [hc, decide_False, if_false]
    have hrec := ih nm post (fun x hx => hpre x (List.mem_cons_of_mem _ hx))
    obtain ⟨r, hr⟩ := Option.isSome_iff_exists.mp hrec
    rw [hr]
    simp

/-- Reduction of the matcher once the `address: ` literal has been stripped. -/
theorem regexCaptures_eq (r1 : List Char) :
    regexCaptures (addrLit ++ r1) =
      if decide ((r1.take 17).length = 17) && (r1.take 17).all isAddrChar then
        match r1.drop 17 with
        | c :: rest =>
          if decide (c = ',') then
            match lastNameCap rest with
            | some nm => some (r1.take 17, nm)
            | none => none
          else none
        | [] => none
      else none := by
  unfold regexCaptures
  rw [dropLit_self]

/-- Soundness of the full pattern matcher: successful captures decompose the
line exactly as the regex reads it. -/
theorem regexCaptures_sound (s addr nm : List Char)
    (h : regexCaptures s = some (addr, nm)) :
    ∃ pre post, s = addrLit ++ addr ++ ',' :: (pre ++ nameLit ++ nm ++ qc :: post) ∧
      addr.length = 17 ∧ (∀ c ∈ addr, isAddrChar c = true) ∧
      (∀ c ∈ nm, c ≠ qc) ∧ (∀ c ∈ pre, c ≠ nl) := by
  unfold regexCaptures at h
  split at h
  · cases h
  · next r1 hd =>
    split at h
    · next hcond =>
      split at h
      · next c rest hdrop =>
        split at h
        · next hcomma =>
          split at h
          · next nm' hlast =>
            injection h with h
            injection h with h1 h2
            subst h2
            obtain ⟨pre, post, hdec, hpre, hnm⟩ := lastNameCap_sound rest _ hlast
            have hs : s = addrLit ++ r1 := dropLit_sound _ _ _ hd
            have hcomma' : c = ',' := by simpa using hcomma
            have hdrop' : List.drop 17 r1 = ',' :: rest := by
              rw [← hcomma']
              exact hdrop
            have hr1 : r1 = addr ++ ',' :: rest := by
              rw [← h1, ← hdrop']
              exact (List.take_append_drop 17 r1).symm
            refine ⟨pre, post, ?_, ?_, ?_, hnm, hpre⟩
            · rw [hs, hr1, hdec]
              simp
            · rw [← h1]
              simpa using (Bool.and_eq_true_iff.mp hcond).1
            · intro x hx
              exact List.all_eq_true.mp (Bool.and_eq_true_iff.mp hcond).2 x (h1 ▸ hx)
          · cases h
        · cases h
      · cases h
    · cases h

/-- Completeness of the full pattern matcher: a line of the declarative shape
is matched (with some captures). -/
theorem regexCaptures_isSome (s : List Char) (hm : MatchesPat s) :
    (regexCaptures s).isSome = true := by
  obtain ⟨addr, pre, nm, post, hdec, hlen, hcls, hnm, hpre⟩ := hm
  subst hdec
  rw [show addrLit ++ addr ++ ',' :: (pre ++ nameLit ++ nm ++ qc :: post) =
      addrLit ++ (addr ++ ',' :: (pre ++ nameLit ++ nm ++ qc :: post)) by simp]
  rw [regexCaptures_eq]
  rw [List.take_left' hlen, List.drop_left' hlen]
  have hcond : (decide (addr.length = 17) && addr.all isAddrChar) = true := by
    simp only [hlen, decide_True, Bool.true_and, List.all_eq_true]
    exact hcls
  rw [if_pos hcond]
  simp only [decide_True, if_pos]
  have hsome := lastNameCap_isSome pre nm post hpre
  rw [show pre ++ nameLit ++ nm ++ qc :: post =
      pre ++ (nameLit ++ (nm ++ qc :: post)) by simp] at hsome
  cases hlast : lastNameCap (pre ++ (nameLit ++ (nm ++ qc :: post))) with
  | none => rw [hlast] at hsome; cases hsome
  | some r =>
    rw [show pre ++ nameLit ++ nm ++ qc :: post =
        pre ++ (nameLit ++ (nm ++ qc :: post)) by simp, hlast]
    simp

/-- The declarative pattern predicate and the operational matcher agree. -/
theorem MatchesPat_iff (s : List Char) :
    MatchesPat s ↔ (regexCaptures s).isSome = true := by
  constructor
  · exact regexCaptures_isSome s
  · intro h
    obtain ⟨⟨addr, nm⟩, hcap⟩ := Option.isSome_iff_exists.mp h
    obtain ⟨pre, post, hdec, hlen, hcls, hnm2, hpre⟩ := regexCaptures_sound s addr nm hcap
    exact ⟨addr, pre, nm, post, hdec, hlen, hcls, hnm2, hpre⟩

/-- Inserting an element in front of a block it is not ordered after. -/
theorem insertDev_front (le : DeviceInfo → DeviceInfo → Bool) (x : DeviceInfo)
    (B : List DeviceInfo) (hB : ∀ y ∈ B, le x y = true) :
    insertDev le x B = x :: B := by
  cases B with
  | nil => rfl
  | cons b bs => simp [insertDev, hB b (List.mem_cons_self _ _)]

/-- Inserting an element past a block it is ordered after and in front of a
block it is not. -/
theorem insertDev_append (le : DeviceInfo → DeviceInfo → Bool) (x : DeviceInfo) :
    ∀ A B : List DeviceInfo, (∀ y ∈ A, le x y = false) → (∀ y ∈ B, le x y = true) →
    insertDev le x (A ++ B) = A ++ x :: B := by
  intro A
  induction A with
  | nil =>
    intro B _ hB
    exact insertDev_front le x B hB
  | cons a as ih =>
    intro B hA hB
    have ha : le x a = false := hA a (List.mem_cons_self _ _)
    simp only [List.cons_append, insertDev, ha, Bool.false_eq_true, if_false]
    exact congrArg _ (ih B (fun y hy => hA y (List.mem_cons_of_mem _ hy)) hB)

/-- A stable sort whose comparator orders by a boolean key (`false` first) is
exactly the stable partition on that key. -/
theorem sortDev_boolKey (key : DeviceInfo → Bool) (le : DeviceInfo → DeviceInfo → Bool)
    (hle : ∀ a b, le a b = !(key a && !(key b))) (l : List DeviceInfo) :
    sortDev le l = l.filter (fun d => !key d) ++ l.filter key := by
  induction l with
  | nil => rfl
  | cons x xs ih =>
    simp only [sortDev, ih]
    cases hx : key x
    · rw [insertDev_front le x _ (fun y _ => by rw [hle]; simp [hx])]
      simp [List.filter_cons, hx]
    · have hA : ∀ y ∈ xs.filter (fun d => !key d), le x y = false := by
        intro y hy
        have hk := (List.mem_filter.mp hy).2
        simp only [Bool.not_eq_true'] at hk
        rw [hle]
        simp [hx, hk]
      have hB : ∀ y ∈ xs.filter key, le x y = true := by
        intro y hy
        have hk := (List.mem_filter.mp hy).2
        rw [hle]
        simp [hx, hk]
      rw [insertDev_append le x _ _ hA hB]
      simp [List.filter_cons, hx]

/-- `sortDev connLe` is the stable partition with connected records first. -/
theorem sortDev_connLe (l : List DeviceInfo) :
    sortDev connLe l =
      l.filter (fun d => d.connected) ++ l.filter (fun d => !d.connected) := by
  have h := sortDev_boolKey (fun d => !d.connected) connLe
    (by
      intro a b
      obtain ⟨n1, a1, c1⟩ := a
      obtain ⟨n2, a2, c2⟩ := b
      cases c1 <;> cases c2 <;> rfl) l
  simpa using h

/-- `sortDev (prevKeyLe prev)` is the stable partition with records matching
the previous address (case-insensitively) first. -/
theorem sortDev_prevKeyLe (prev : List Char) (l : List DeviceInfo) :
    sortDev (prevKeyLe prev) l =
      l.filter (fun d => decide (lowerStr d.address = lowerStr prev)) ++
      l.filter (fun d => decide (lowerStr d.address ≠ lowerStr prev)) := by
  have h := sortDev_boolKey (fun d => decide (lowerStr d.address ≠ lowerStr prev))
    (prevKeyLe prev) (fun a b => rfl) l
  simpa [decide_not] using h

/-- ASCII lowercasing is idempotent. -/
theorem toLower_toLower (c : Char) : (c.toLower).toLower = c.toLower := by
  unfold Char.toLower
  by_cases h : c.toNat >= 65 ∧ c.toNat <= 90
  · have hv : (c.toNat + 32).isValidChar := by
      unfold Nat.isValidChar
      omega
    rw [if_pos h]
    have ht : (Char.ofNat (c.toNat + 32)).toNat = c.toNat + 32 := by
      simp [Char.ofNat, hv]
      rfl
    rw [ht, if_neg (by omega)]
  · rw [if_neg h, if_neg h]

/-- String lowercasing is idempotent. -/
theorem lowerStr_idem (s : List Char) : lowerStr (lowerStr s) = lowerStr s := by
  unfold lowerStr
  rw [List.map_map]
  apply List.map_congr_left
  intro c _
  exact toLower_toLower c

/-- Unfolding `get_device_list` without a previous-address hint. -/
theorem get_device_list_none (devices : List DeviceInfo) (filters : DeviceFilters) :
    get_device_list devices ⟨filters, none⟩ =
      sortDev connLe (get_filtered_devices devices filters) := rfl

/-- Unfolding `get_device_list` with a previous-address hint. -/
theorem get_device_list_some (devices : List DeviceInfo) (filters : DeviceFilters)
    (prev : List Char) :
    get_device_list devices ⟨filters, some prev⟩ =
      sortDev (prevKeyLe prev)
        (sortDev connLe (get_filtered_devices devices filters)) := rfl

/-- Unfolding the address filter. -/
theorem get_filtered_devices_specific (devices : List DeviceInfo)
    (addresses : List (List Char)) :
    get_filtered_devices devices (.SpecificAddresses addresses) =
      devices.filter (fun x => decide (lowerStr x.address ∈ addresses)) := rfl

/-- When no record's address matches the query case-insensitively, the lookup
fails with the not-found message carrying the query. -/
theorem get_device_info_absent (devices : List DeviceInfo) (address : List Char)
    (h : ∀ d ∈ devices, lowerStr d.address ≠ lowerStr address) :
    get_device_info address devices = .error ⟨notFoundMsg address⟩ := by
  have hF : devices.filter (fun x => decide (lowerStr x.address ∈ [address])) = [] := by
    apply List.filter_eq_nil_iff.mpr
    intro d hd
    simp only [List.mem_singleton, decide_eq_true_eq]
    intro heq
    exact h d hd (by rw [← heq, lowerStr_idem])
  unfold get_device_info
  rw [get_device_list_none, get_filtered_devices_specific, hF]
  rfl

/-- When `d` is the unique record whose lowercased address equals the query
string as given, the lookup returns exactly `d`. -/
theorem get_device_info_found (devices : List DeviceInfo) (address : List Char)
    (d : DeviceInfo) (hd : d ∈ devices) (haddr : lowerStr d.address = address)
    (huniq : ∀ x ∈ devices, lowerStr x.address = address → x = d) :
    get_device_info address devices = .ok d := by
  have hp2d : decide (lowerStr d.address = lowerStr address) = true := by
    simp only [decide_eq_true_eq]
    rw [← haddr, lowerStr_idem]
  have hFmem : ∀ x ∈ devices.filter (fun x => decide (lowerStr x.address ∈ [address])),
      x = d := by
    intro x hx
    have h1 := List.mem_filter.mp hx
    refine huniq x h1.1 ?_
    simpa using h1.2
  have hdF : d ∈ devices.filter (fun x => decide (lowerStr x.address ∈ [address])) := by
    refine List.mem_filter.mpr ⟨hd, ?_⟩
    simpa using haddr
  have hSmem : ∀ x ∈ sortDev connLe
      (devices.filter (fun x => decide (lowerStr x.address ∈ [address]))), x = d := by
    intro x hx
    rw [sortDev_connLe] at hx
    rcases List.mem_append.mp hx with hx' | hx'
    · exact hFmem x (List.mem_filter.mp hx').1
    · exact hFmem x (List.mem_filter.mp hx').1
  have hdS : d ∈ sortDev connLe
      (devices.filter (fun x => decide (lowerStr x.address ∈ [address]))) := by
    rw [sortDev_connLe]
    cases hc : d.connected
    · exact List.mem_append_right _ (List.mem_filter.mpr ⟨hdF, by simp [hc]⟩)
    · exact List.mem_append_left _ (List.mem_filter.mpr ⟨hdF, by simp [hc]⟩)
  have hdl2 : d ∈ (sortDev connLe
      (devices.filter (fun x => decide (lowerStr x.address ∈ [address])))).filter
      (fun x => decide (lowerStr x.address = lowerStr address)) :=
    List.mem_filter.mpr ⟨hdS, hp2d⟩
  unfold get_device_info
  rw [get_device_list_none, get_filtered_devices_specific]
  cases hl : (sortDev connLe
      (devices.filter (fun x => decide (lowerStr x.address ∈ [address])))).filter
      (fun x => decide (lowerStr x.address = lowerStr address)) with
  | nil =>
    rw [hl] at hdl2
    cases hdl2
  | cons x xs =>
    have hxd : x = d := by
      have hx2 : x ∈ (sortDev connLe
          (devices.filter (fun x => decide (lowerStr x.address ∈ [address])))).filter
          (fun x => decide (lowerStr x.address = lowerStr address)) := by
        rw [hl]
        exact List.mem_cons_self x xs
      exact hSmem x (List.mem_filter.mp hx2).1
    exact congrArg Except.ok hxd

/-- C1, counterexample: the claim says address-set filtering is
case-insensitive in the set's entries as well, but the code lowercases only
the record's address and compares it verbatim against the set.  With the set
entry `A` and a record whose address is `A`, the spec-side filter keeps the
record while the code drops it. -/
theorem claim_C1_counterexample :
    get_filtered_devices [⟨"x".toList, "A".toList, true⟩]
        (.SpecificAddresses ["A".toList]) ≠
      filterByAddressesSpec ["A".toList] [⟨"x".toList, "A".toList, true⟩] := by
  decide

/-- C1, amended: filtering by an address set keeps exactly the subsequence of
records whose lowercased address is an element of the set (so membership is
insensitive to the case of the record's address, but the set's entries are
compared verbatim and match only if given in lowercase), preserving relative
order. -/
theorem claim_C1_amended (devices : List DeviceInfo) (addresses : List (List Char)) :
    List.Sublist (get_filtered_devices devices (.SpecificAddresses addresses)) devices ∧
    get_filtered_devices devices (.SpecificAddresses addresses) =
      devices.filter (fun d => decide (∃ a ∈ addresses, a = lowerStr d.address)) := by
  constructor
  · rw [get_filtered_devices_specific]
    exact List.filter_sublist _
  · rw [get_filtered_devices_specific]
    apply List.filter_congr
    intro d _
    apply decide_eq_decide.mpr
    constructor
    · intro h
      exact ⟨lowerStr d.address, h, rfl⟩
    · rintro ⟨a, ha, rfl⟩
      exact ha

/-- C2, counterexample: the claim says a record matching the query
case-insensitively is returned for any casing of the query, but with the
query `A` and a record whose address is `A` (a case-insensitive and even
exact match) the lookup fails with the not-found error, because the record's
lowercased address `a` is compared against the query verbatim. -/
theorem claim_C2_counterexample :
    lowerStr (DeviceInfo.address ⟨"x".toList, "A".toList, true⟩) =
      lowerStr "A".toList ∧
    get_device_info "A".toList [⟨"x".toList, "A".toList, true⟩] =
      .error ⟨notFoundMsg "A".toList⟩ ∧
    get_device_info "A".toList [⟨"x".toList, "A".toList, true⟩] ≠
      .ok ⟨"x".toList, "A".toList, true⟩ := by
  refine ⟨rfl, rfl, ?_⟩
  intro h
  rw [show get_device_info "A".toList [⟨"x".toList, "A".toList, true⟩] =
      .error ⟨notFoundMsg "A".toList⟩ from rfl] at h
  exact Except.noConfusion h

/-- C2, amended: `get_device_info` fails with the not-found error carrying the
requested address when no record's address matches the query
case-insensitively; and when the query is such that some record's lowercased
address equals it verbatim (in particular the query must be in lowercase) and
that record is the unique such match, the lookup returns that exact record.
A query differing from lowercase finds nothing even when a case-insensitively
matching record is present. -/
theorem claim_C2_amended (devices : List DeviceInfo) (address : List Char) :
    ((∀ d ∈ devices, lowerStr d.address ≠ lowerStr address) →
      get_device_info address devices = .error ⟨notFoundMsg address⟩) ∧
    (∀ d, d ∈ devices → lowerStr d.address = address →
      (∀ x ∈ devices, lowerStr x.address = address → x = d) →
      get_device_info address devices = .ok d) :=
  ⟨get_device_info_absent devices address,
    fun d hd ha hu => get_device_info_found devices address d hd ha hu⟩

/-- C2, witness: a lowercase query returns the (unique) case-insensitively
matching record, and an absent query yields the not-found error with the
query in its message. -/
theorem claim_C2_witness :
    get_device_info "aa".toList [⟨"x".toList, "AA".toList, true⟩] =
      .ok ⟨"x".toList, "AA".toList, true⟩ ∧
    get_device_info "zz".toList [⟨"x".toList, "AA".toList, true⟩] =
      .error ⟨notFoundMsg "zz".toList⟩ := by
  constructor
  · exact (claim_C2_amended [⟨"x".toList, "AA".toList, true⟩] "aa".toList).2
      ⟨"x".toList, "AA".toList, true⟩ (by decide) (by decide) (by decide)
  · exact (claim_C2_amended [⟨"x".toList, "AA".toList, true⟩] "zz".toList).1 (by decide)

/-- C3, counterexample: the claim says name filtering is case-insensitive in
the pattern as well, but the code lowercases only the record's name and
searches for the pattern verbatim.  With the pattern `A` and a record named
`a`, the spec-side filter keeps the record while the code drops it. -/
theorem claim_C3_counterexample :
    get_filtered_devices [⟨"a".toList, "z".toList, false⟩] (.Regex "A".toList) ≠
      filterByNameSpec "A".toList [⟨"a".toList, "z".toList, false⟩] := by
  decide

/-- C3, amended: filtering by a name pattern keeps exactly the subsequence of
records whose lowercased name contains the pattern verbatim as a substring
(so matching is insensitive to the case of the record's name, but the pattern
matches only if given in lowercase), preserving relative order. -/
theorem claim_C3_amended (devices : List DeviceInfo) (value : List Char) :
    List.Sublist (get_filtered_devices devices (.Regex value)) devices ∧
    get_filtered_devices devices (.Regex value) =
      devices.filter (fun d => decide (value <:+: lowerStr d.name)) := by
  constructor
  · exact List.filter_sublist _
  · apply List.filter_congr
    intro d _
    cases hc : containsSub value (lowerStr d.name)
    · have : ¬ (value <:+: lowerStr d.name) := by
        rw [← containsSub_iff, hc]
        simp
      simp [this]
    · have : value <:+: lowerStr d.name := (containsSub_iff _ _).mp hc
      simp [this]

/-- C4: when the lookup finds the device, toggling a connected device invokes
disconnect exactly once and connect zero times and returns `false`, while
toggling a disconnected device invokes connect exactly once and disconnect
zero times and returns `true` (the trace of gateway invocations is the
corresponding singleton). -/
theorem claim_C4 (devices : List DeviceInfo) (address : List Char) (d : DeviceInfo)
    (h : get_device_info address devices = .ok d) :
    (d.connected = true →
      toggle_connected_status address devices =
        (.ok false, [GatewayAction.disconnect address])) ∧
    (d.connected = false →
      toggle_connected_status address devices =
        (.ok true, [GatewayAction.connect address])) := by
  unfold toggle_connected_status
  rw [h]
  constructor
  · intro hc
    simp [hc]
  · intro hc
    simp [hc]

/-- C4, witness: toggling a present connected device and a present
disconnected device. -/
theorem claim_C4_witness :
    toggle_connected_status "a".toList [⟨"n".toList, "a".toList, true⟩] =
      (.ok false, [GatewayAction.disconnect "a".toList]) ∧
    toggle_connected_status "b".toList [⟨"m".toList, "b".toList, false⟩] =
      (.ok true, [GatewayAction.connect "b".toList]) := by
  constructor
  · exact (claim_C4 [⟨"n".toList, "a".toList, true⟩] "a".toList
      ⟨"n".toList, "a".toList, true⟩ rfl).1 rfl
  · exact (claim_C4 [⟨"m".toList, "b".toList, false⟩] "b".toList
      ⟨"m".toList, "b".toList, false⟩ rfl).2 rfl

/-- C5: without a previous-address hint, `get_device_list` is the stable
partition of the filtered input with all connected records first, each group
keeping its relative order. -/
theorem claim_C5 (devices : List DeviceInfo) (filters : DeviceFilters) :
    get_device_list devices ⟨filters, none⟩ =
      (get_filtered_devices devices filters).filter (fun d => d.connected) ++
      (get_filtered_devices devices filters).filter (fun d => !d.connected) := by
  rw [get_device_list_none, sortDev_connLe]

/-- C6: with a previous-address hint, `get_device_list` is the stable
partition of the hint-free result that moves the records whose lowercased
address equals the lowercased hint to the front; all other records keep their
connected-first relative order. -/
theorem claim_C6 (devices : List DeviceInfo) (filters : DeviceFilters)
    (prev : List Char) :
    get_device_list devices ⟨filters, some prev⟩ =
      (get_device_list devices ⟨filters, none⟩).filter
        (fun d => decide (lowerStr d.address = lowerStr prev)) ++
      (get_device_list devices ⟨filters, none⟩).filter
        (fun d => decide (lowerStr d.address ≠ lowerStr prev)) := by
  rw [get_device_list_some, get_device_list_none, sortDev_prevKeyLe]

/-- C7: on a line matched by the pattern, the parsed record carries exactly
the two captured substrings as address and name (the line decomposes around
them as the pattern reads it), and its connected flag is false precisely when
the whole line contains the literal substring `not connected`. -/
theorem claim_C7 (s addr nm : List Char) (h : regexCaptures s = some (addr, nm)) :
    DeviceInfo.from_raw_str s =
      some ⟨nm, addr, !(containsSub notConnLit s)⟩ ∧
    ((!(containsSub notConnLit s)) = false ↔ notConnLit <:+: s) ∧
    ∃ pre post,
      s = addrLit ++ addr ++ ',' :: (pre ++ nameLit ++ nm ++ qc :: post) ∧
      addr.length = 17 ∧ (∀ c ∈ addr, isAddrChar c = true) ∧
      (∀ c ∈ nm, c ≠ qc) ∧ (∀ c ∈ pre, c ≠ nl) := by
  refine ⟨?_, ?_, regexCaptures_sound s addr nm h⟩
  · unfold DeviceInfo.from_raw_str
    rw [h]
  · constructor
    · intro hb
      have hc : containsSub notConnLit s = true := by
        cases hcs : containsSub notConnLit s
        · rw [hcs] at hb
          cases hb
        · rfl
      exact (containsSub_iff _ _).mp hc
    · intro hi
      rw [(containsSub_iff _ _).mpr hi]
      rfl

/-- C7, witness: the well-formed example line parses to its captures with
`connected = true` (no disconnection marker present). -/
theorem claim_C7_witness :
    DeviceInfo.from_raw_str goodLine =
      some ⟨"Pods".toList, "00-11-22-33-44-55".toList, true⟩ := by
  have h := claim_C7 goodLine "00-11-22-33-44-55".toList "Pods".toList (by decide)
  rw [h.1]
  rfl

/-- C8: a line that does not match the declarative address/name pattern makes
the parser abort (the `assert!` panics): no device record, partial or
otherwise, is produced. -/
theorem claim_C8 (s : List Char) (h : ¬ MatchesPat s) :
    DeviceInfo.from_raw_str s = none := by
  cases hc : regexCaptures s with
  | none =>
    unfold DeviceInfo.from_raw_str
    rw [hc]
  | some p =>
    exfalso
    apply h
    rw [MatchesPat_iff, hc]
    rfl

/-- C8, witness: the repository's own panic-test line (an address with no
following comma or name field) produces no record. -/
theorem claim_C8_witness : DeviceInfo.from_raw_str badLine = none := by
  apply claim_C8
  rw [MatchesPat_iff]
  decide

/-- C9: the `AllDevices` filter is the identity on the device list, in content
and order. -/
theorem claim_C9 (devices : List DeviceInfo) :
    get_filtered_devices devices .AllDevices = devices := rfl

/-- C10: when no record matches the queried address case-insensitively,
toggling returns the not-found error carrying the address and performs no
gateway invocation at all (the failed read aborts before any connect or
disconnect). -/
theorem claim_C10 (devices : List DeviceInfo) (address : List Char)
    (h : ∀ d ∈ devices, lowerStr d.address ≠ lowerStr address) :
    toggle_connected_status address devices =
      (.error ⟨notFoundMsg address⟩, []) := by
  unfold toggle_connected_status
  rw [get_device_info_absent devices address h]

/-- C10, witness: toggling an absent address performs no gateway action. -/
theorem claim_C10_witness :
    toggle_connected_status "zz".toList [⟨"x".toList, "aa".toList, true⟩] =
      (.error ⟨notFoundMsg "zz".toList⟩, []) :=
  claim_C10 [⟨"x".toList, "aa".toList, true⟩] "zz".toList (by decide)
